import Mathlib

/-!
# Verification of the WorldleDuel room/game engine against its specification

Shallow embedding of the repository's game logic:

* `evaluateGuess` — the two-pass Wordle scorer from
  `src/renderer/src/lib/utils.ts` (duplicated in the `/game` route).
* `isValidWord`, `generateRoomCode` — the other helpers of `utils.ts`.
* `validateWord` — the custom-word validator of `CustomWordInput`.
* the Zustand `gameStore` state and its actions
  (`resetGame`, `removePlayer`, `eliminatePlayer`).
* the `/game` route's local `submitGuess` handler.
* the room construction of the lobby's `handleCreateRoom`.

JS mutable arrays become Lean lists; the scorer's trick of overwriting a
consumed solution slot with the empty string `''` is embedded as
`Option Char` slots where a consumed slot is `none`.
-/

/-- Per-letter verdict of a guess, `'correct' | 'present' | 'absent'`. -/
inductive Verdict where
  | correct
  | present
  | absent
deriving DecidableEq, Repr

/-- First pass of `evaluateGuess`: the per-position `evaluation` entries it
fills in (`some correct` where `guessArray[i] === solutionArray[i]`,
otherwise still unset). -/
def firstPassMarks (g s : List Char) : List (Option Verdict) :=
  List.zipWith (fun gc sc => if gc = sc then some Verdict.correct else none) g s

/-- First pass of `evaluateGuess`: the `solutionArray` after the loop, where a
position matched in pass one has been overwritten with `''` (here `none`). -/
def firstPassSlots (g s : List Char) : List (Option Char) :=
  List.zipWith (fun gc sc => if gc = sc then none else some sc) g s

/-- Consumption step `solutionArray[letterIndex] = ''` for
`letterIndex = solutionArray.indexOf(c)`:
blank out the leftmost unconsumed occurrence of `c`. -/
def replaceFirst : List (Option Char) → Char → List (Option Char)
  | [], _ => []
  | none :: rest, c => none :: replaceFirst rest c
  | some a :: rest, c =>
    if a = c then none :: rest else some a :: replaceFirst rest c

/-- Second pass of `evaluateGuess`: walk the guess letters paired with the
first-pass marks, threading `solutionArray`; a position already `correct` is
skipped, otherwise `indexOf` decides `present` (consuming the slot found)
versus `absent`. -/
def secondPass : List (Char × Option Verdict) → List (Option Char) → List Verdict
  | [], _ => []
  | (_, some v) :: rest, slots => v :: secondPass rest slots
  | (c, none) :: rest, slots =>
    if some c ∈ slots then Verdict.present :: secondPass rest (replaceFirst slots c)
    else Verdict.absent :: secondPass rest slots

/-- Embedding of `evaluateGuess` from `src/renderer/src/lib/utils.ts` (lines 9–36): the
two-pass scorer over `guess.split('')` and `solution.split('')`. -/
def evaluateGuess (guess solution : String) : List Verdict :=
  secondPass (guess.data.zip (firstPassMarks guess.data solution.data))
    (firstPassSlots guess.data solution.data)

/-- Spec-side first pass, following the specification's words: position by
position, on a match mark `correct` and remove that solution letter from a
mutable copy of the solution's multiset. Returns the marks and the remaining
multiset. -/
def specFirstPass : List (Char × Char) → Multiset Char →
    List (Option Verdict) × Multiset Char
  | [], m => ([], m)
  | (gc, sc) :: rest, m =>
    if gc = sc then
      let r := specFirstPass rest (m.erase sc)
      (some Verdict.correct :: r.1, r.2)
    else
      let r := specFirstPass rest m
      (none :: r.1, r.2)

/-- Spec-side second pass: for each position not already `correct`, mark
`present` if the letter still exists in the remaining solution multiset
(consuming one occurrence), otherwise `absent`. -/
def specSecondPass : List (Char × Option Verdict) → Multiset Char → List Verdict
  | [], _ => []
  | (_, some v) :: rest, m => v :: specSecondPass rest m
  | (c, none) :: rest, m =>
    if c ∈ m then Verdict.present :: specSecondPass rest (m.erase c)
    else Verdict.absent :: specSecondPass rest m

/-- The two-pass Wordle algorithm exactly as the specification states it,
with the remaining solution letters kept as a multiset. -/
def twoPassSpec (guess solution : String) : List Verdict :=
  specSecondPass
    (guess.data.zip
      (specFirstPass (guess.data.zip solution.data) (↑solution.data : Multiset Char)).1)
    (specFirstPass (guess.data.zip solution.data) (↑solution.data : Multiset Char)).2

example : evaluateGuess "SPEED" "ERASE" =
    [Verdict.present, Verdict.absent, Verdict.present, Verdict.present, Verdict.absent] := by
  decide

example : twoPassSpec "SPEED" "ERASE" =
    [Verdict.present, Verdict.absent, Verdict.present, Verdict.present, Verdict.absent] := by
  decide

example : evaluateGuess "CRANE" "CRANE" =
    [Verdict.correct, Verdict.correct, Verdict.correct, Verdict.correct, Verdict.correct] := by
  decide

/-! ## Equivalence of the implementation with the two-pass specification -/

theorem zipWith_map_zip (f : Char → Char → α) :
    ∀ (l₁ l₂ : List Char),
      List.zipWith f l₁ l₂ = (l₁.zip l₂).map (fun p => f p.1 p.2)
  | [], _ => rfl
  | _ :: _, [] => rfl
  | a :: l₁, b :: l₂ => by
    simpa using zipWith_map_zip f l₁ l₂

theorem zip_zipWith_self (f : Char → Char → α) :
    ∀ (g s : List Char),
      g.zip (List.zipWith f g s) = (g.zip s).map (fun p => (p.1, f p.1 p.2))
  | [], _ => rfl
  | _ :: _, [] => rfl
  | a :: g, b :: s => by
    simpa using zip_zipWith_self f g s

theorem mem_filterMap_id (slots : List (Option Char)) (c : Char) :
    c ∈ slots.filterMap id ↔ some c ∈ slots := by
  simp [List.mem_filterMap]

theorem replaceFirst_filterMap :
    ∀ (slots : List (Option Char)) (c : Char),
      (replaceFirst slots c).filterMap id = (slots.filterMap id).erase c
  | [], _ => rfl
  | none :: rest, c => by
    simpa [replaceFirst] using replaceFirst_filterMap rest c
  | some a :: rest, c => by
    by_cases h : a = c
    · subst h
      simp [replaceFirst]
    · have hba : ¬((a : Char) == c) := by simpa using h
      simp [replaceFirst, h, List.erase_cons_tail hba,
        replaceFirst_filterMap rest c]

theorem specSecondPass_eq_secondPass :
    ∀ (pairs : List (Char × Option Verdict)) (slots : List (Option Char)),
      specSecondPass pairs ↑(slots.filterMap id) = secondPass pairs slots
  | [], _ => rfl
  | (_, some _) :: rest, slots => by
    simpa [specSecondPass, secondPass] using
      specSecondPass_eq_secondPass rest slots
  | (c, none) :: rest, slots => by
    by_cases h : some c ∈ slots
    · have hm : c ∈ (↑(slots.filterMap id) : Multiset Char) :=
        Multiset.mem_coe.mpr ((mem_filterMap_id slots c).mpr h)
      have hrec : specSecondPass rest ↑((slots.filterMap id).erase c)
          = secondPass rest (replaceFirst slots c) := by
        rw [← replaceFirst_filterMap]
        exact specSecondPass_eq_secondPass rest (replaceFirst slots c)
      simp only [specSecondPass, secondPass, if_pos h, if_pos hm]
      exact congrArg (fun l => Verdict.present :: l) hrec
    · have hm : c ∉ (↑(slots.filterMap id) : Multiset Char) := by
        intro hc
        exact h ((mem_filterMap_id slots c).mp (Multiset.mem_coe.mp hc))
      simp only [specSecondPass, secondPass, if_neg h, if_neg hm]
      rw [specSecondPass_eq_secondPass rest slots]

theorem specFirstPass_fst :
    ∀ (pairs : List (Char × Char)) (m : Multiset Char),
      (specFirstPass pairs m).1
        = pairs.map (fun p => if p.1 = p.2 then some Verdict.correct else none)
  | [], _ => rfl
  | (gc, sc) :: rest, m => by
    by_cases h : gc = sc <;>
      simp [specFirstPass, h, specFirstPass_fst rest]

/-- The solution letters consumed by the spec's first pass. -/
def matchedOf (pairs : List (Char × Char)) : List Char :=
  pairs.filterMap (fun p => if p.1 = p.2 then some p.2 else none)

/-- The solution letters the spec's first pass leaves in the multiset. -/
def unmatchedOf (pairs : List (Char × Char)) : List Char :=
  pairs.filterMap (fun p => if p.1 = p.2 then none else some p.2)

theorem specFirstPass_snd :
    ∀ (pairs : List (Char × Char)) (m : Multiset Char),
      (specFirstPass pairs m).2 = m - ↑(matchedOf pairs)
  | [], m => by simp [specFirstPass, matchedOf]
  | (gc, sc) :: rest, m => by
    by_cases h : gc = sc
    · have hm : matchedOf ((gc, sc) :: rest) = sc :: matchedOf rest := by
        simp [matchedOf, List.filterMap_cons, h]
      simp only [specFirstPass, if_pos h, hm]
      rw [specFirstPass_snd rest (m.erase sc), ← Multiset.cons_coe, Multiset.sub_cons]
    · have hm : matchedOf ((gc, sc) :: rest) = matchedOf rest := by
        simp [matchedOf, List.filterMap_cons, h]
      simp only [specFirstPass, if_neg h, hm]
      exact specFirstPass_snd rest m

theorem snd_perm_partition :
    ∀ (pairs : List (Char × Char)),
      (pairs.map Prod.snd).Perm (matchedOf pairs ++ unmatchedOf pairs)
  | [] => List.Perm.refl _
  | (gc, sc) :: rest => by
    by_cases h : gc = sc
    · have hm : matchedOf ((gc, sc) :: rest) = sc :: matchedOf rest := by
        simp [matchedOf, List.filterMap_cons, h]
      have hu : unmatchedOf ((gc, sc) :: rest) = unmatchedOf rest := by
        simp [unmatchedOf, List.filterMap_cons, h]
      rw [List.map_cons, hm, hu, List.cons_append]
      exact (snd_perm_partition rest).cons sc
    · have hm : matchedOf ((gc, sc) :: rest) = matchedOf rest := by
        simp [matchedOf, List.filterMap_cons, h]
      have hu : unmatchedOf ((gc, sc) :: rest) = sc :: unmatchedOf rest := by
        simp [unmatchedOf, List.filterMap_cons, h]
      rw [List.map_cons, hm, hu]
      exact ((snd_perm_partition rest).cons sc).trans List.perm_middle.symm

theorem snd_partition (pairs : List (Char × Char)) :
    (↑(pairs.map Prod.snd) : Multiset Char)
      = ↑(matchedOf pairs) + ↑(unmatchedOf pairs) := by
  simpa using Multiset.coe_eq_coe.mpr (snd_perm_partition pairs)

theorem firstPassSlots_filterMap (g s : List Char) :
    (firstPassSlots g s).filterMap id = unmatchedOf (g.zip s) := by
  rw [firstPassSlots, zipWith_map_zip,
    List.filterMap_map (fun p : Char × Char => if p.1 = p.2 then none else some p.2) id]
  rfl

theorem map_snd_zip_eq :
    ∀ (g s : List Char), g.length = s.length → (g.zip s).map Prod.snd = s
  | [], [], _ => rfl
  | [], _ :: _, h => by simp at h
  | _ :: _, [], h => by simp at h
  | a :: g, b :: s, h => by
    simpa using map_snd_zip_eq g s (by simpa using h)

theorem evaluateGuess_eq_twoPass_of_length (guess solution : String)
    (h : guess.data.length = solution.data.length) :
    evaluateGuess guess solution = twoPassSpec guess solution := by
  unfold evaluateGuess twoPassSpec
  have hmarks : (specFirstPass (guess.data.zip solution.data)
      (↑solution.data : Multiset Char)).1 = firstPassMarks guess.data solution.data := by
    rw [specFirstPass_fst, firstPassMarks, zipWith_map_zip]
  rw [hmarks, ← specSecondPass_eq_secondPass]
  congr 1
  rw [specFirstPass_snd, firstPassSlots_filterMap]
  have hs := snd_partition (guess.data.zip solution.data)
  rw [map_snd_zip_eq guess.data solution.data h] at hs
  rw [hs]
  exact (add_tsub_cancel_left (α := Multiset Char) _ _).symm

/-- C1: for 5-character guess and solution strings, `evaluateGuess` returns
exactly the verdicts of the two-pass Wordle algorithm: the first pass marks
`correct` where `guess[i] == solution[i]` and removes that letter from the
solution multiset; the second pass marks a non-correct position `present`
when its letter still exists in the remaining multiset (consuming one
occurrence), and `absent` otherwise. -/
theorem evaluateGuess_matches_twoPassSpec (guess solution : String)
    (hg : guess.length = 5) (hs : solution.length = 5) :
    evaluateGuess guess solution = twoPassSpec guess solution :=
  evaluateGuess_eq_twoPass_of_length guess solution (by
    have h1 : guess.data.length = 5 := hg
    have h2 : solution.data.length = 5 := hs
    omega)

/-- Witness for C1 at the concrete pair `("SPEED", "ERASE")`. -/
theorem evaluateGuess_matches_twoPassSpec_witness :
    ("SPEED" : String).length = 5 ∧ ("ERASE" : String).length = 5 ∧
      evaluateGuess "SPEED" "ERASE" = twoPassSpec "SPEED" "ERASE" :=
  ⟨rfl, rfl, evaluateGuess_matches_twoPassSpec "SPEED" "ERASE" rfl rfl⟩

/-! ## Duplicate-letter counting bound (evaluator correctness property) -/

theorem map_fst_zip_eq :
    ∀ (g s : List Char), g.length = s.length → (g.zip s).map Prod.fst = g
  | [], [], _ => rfl
  | [], _ :: _, h => by simp at h
  | _ :: _, [], h => by simp at h
  | a :: g, b :: s, h => by
    simpa using map_fst_zip_eq g s (by simpa using h)

theorem map_fst_zip_marks (g s : List Char) (h : g.length = s.length) :
    (g.zip (firstPassMarks g s)).map Prod.fst = g := by
  rw [firstPassMarks, zip_zipWith_self, List.map_map]
  have hf : (Prod.fst ∘ fun p : Char × Char =>
      (p.1, if p.1 = p.2 then some Verdict.correct else none)) = Prod.fst := rfl
  rw [hf]
  exact map_fst_zip_eq g s h


theorem countP_marks (g s : List Char) (c : Char) :
    (g.zip (firstPassMarks g s)).countP
        (fun p => decide (p.1 = c) && !decide (p.2 = (none : Option Verdict)))
      = (g.zip s).countP (fun p => decide (p.1 = c) && decide (p.1 = p.2)) := by
  rw [firstPassMarks, zip_zipWith_self, List.countP_map]
  congr 1
  funext p
  by_cases hh : p.1 = p.2 <;> simp [hh]

theorem secondPass_count_le :
    ∀ (pairs : List (Char × Option Verdict)) (slots : List (Option Char)) (c : Char),
      ((pairs.map Prod.fst).zip (secondPass pairs slots)).countP
          (fun p => decide (p.1 = c) && !decide (p.2 = Verdict.absent))
        ≤ pairs.countP (fun p => decide (p.1 = c) && !decide (p.2 = (none : Option Verdict)))
            + (slots.filterMap id).count c
  | [], _, _ => Nat.zero_le _
  | (a, some v) :: rest, slots, c => by
    have ih := secondPass_count_le rest slots c
    simp only [secondPass, List.map_cons, List.zip_cons_cons, List.countP_cons]
    by_cases hac : a = c
    · by_cases hv : v = Verdict.absent <;> simp [hac, hv] <;> omega
    · simp [hac]
      omega
  | (a, none) :: rest, slots, c => by
    by_cases hmem : some a ∈ slots
    · simp only [secondPass, if_pos hmem, List.map_cons, List.zip_cons_cons,
        List.countP_cons]
      by_cases hac : a = c
      · subst hac
        have ih := secondPass_count_le rest (replaceFirst slots a) a
        have hcount : ((replaceFirst slots a).filterMap id).count a
            = (slots.filterMap id).count a - 1 := by
          rw [replaceFirst_filterMap, List.count_erase_self]
        have hpos : 0 < (slots.filterMap id).count a :=
          List.count_pos_iff.mpr ((mem_filterMap_id slots a).mpr hmem)
        simp
        omega
      · have ih := secondPass_count_le rest (replaceFirst slots a) c
        have hcount : ((replaceFirst slots a).filterMap id).count c
            = (slots.filterMap id).count c := by
          rw [replaceFirst_filterMap]
          exact List.count_erase_of_ne (Ne.symm hac) _
        simp [hac]
        omega
    · have ih := secondPass_count_le rest slots c
      simp only [secondPass, if_neg hmem, List.map_cons, List.zip_cons_cons,
        List.countP_cons]
      simp
      omega

theorem matched_count_partition :
    ∀ (ps : List (Char × Char)) (c : Char),
      ps.countP (fun p => decide (p.1 = c) && decide (p.1 = p.2))
          + (unmatchedOf ps).count c
        = (ps.map Prod.snd).count c
  | [], _ => rfl
  | (gc, sc) :: rest, c => by
    have ih := matched_count_partition rest c
    by_cases h : gc = sc
    · have hu : unmatchedOf ((gc, sc) :: rest) = unmatchedOf rest := by
        simp [unmatchedOf, List.filterMap_cons, h]
      simp only [List.countP_cons, hu, List.map_cons, List.count_cons]
      by_cases hc : sc = c <;> simp [h, hc] <;> omega
    · have hu : unmatchedOf ((gc, sc) :: rest) = sc :: unmatchedOf rest := by
        simp [unmatchedOf, List.filterMap_cons, h]
      simp only [List.countP_cons, hu, List.map_cons, List.count_cons]
      by_cases hc : sc = c
      · subst hc
        simp [h]
        omega
      · simp [h, hc]
        omega

/-- C2: for 5-character guess and solution strings and any letter `c`, the
number of guess positions holding `c` whose verdict is `correct` or `present`
never exceeds the number of occurrences of `c` in the solution. -/
theorem evaluateGuess_letter_count_bound (guess solution : String)
    (hg : guess.length = 5) (hs : solution.length = 5) (c : Char) :
    (guess.data.zip (evaluateGuess guess solution)).countP
        (fun p => decide (p.1 = c ∧ p.2 ≠ Verdict.absent))
      ≤ solution.data.count c := by
  have h5 : guess.data.length = solution.data.length := by
    have h1 : guess.data.length = 5 := hg
    have h2 : solution.data.length = 5 := hs
    omega
  have main := secondPass_count_le
    (guess.data.zip (firstPassMarks guess.data solution.data))
    (firstPassSlots guess.data solution.data) c
  rw [map_fst_zip_marks _ _ h5, countP_marks, firstPassSlots_filterMap] at main
  have hpart := matched_count_partition (guess.data.zip solution.data) c
  rw [map_snd_zip_eq _ _ h5] at hpart
  have hconv : (guess.data.zip (evaluateGuess guess solution)).countP
      (fun p => decide (p.1 = c ∧ p.2 ≠ Verdict.absent))
      = (guess.data.zip (evaluateGuess guess solution)).countP
        (fun p => decide (p.1 = c) && !decide (p.2 = Verdict.absent)) := by
    simp only [ne_eq, Bool.decide_and, decide_not]
  rw [hconv]
  unfold evaluateGuess
  omega

/-- Witness for C2 at `("SPEED", "ERASE")` with the duplicated letter `E`:
the two `E`s of the guess yield at most the two `E`s of the solution. -/
theorem evaluateGuess_letter_count_bound_witness :
    ("SPEED" : String).length = 5 ∧ ("ERASE" : String).length = 5 ∧
      (("SPEED" : String).data.zip (evaluateGuess "SPEED" "ERASE")).countP
          (fun p => decide (p.1 = 'E' ∧ p.2 ≠ Verdict.absent))
        ≤ ("ERASE" : String).data.count 'E' :=
  ⟨rfl, rfl, evaluateGuess_letter_count_bound "SPEED" "ERASE" rfl rfl 'E'⟩

/-! ## Data model of the game store (`stores/gameStore.ts`) -/

/-- Room/game status union `'waiting' | 'playing' | 'finished'`. -/
inductive Status where
  | waiting
  | playing
  | finished
deriving DecidableEq, Repr

/-- Game mode union `'duel' | 'battleRoyale'`. -/
inductive Mode where
  | duel
  | battleRoyale
deriving DecidableEq, Repr

/-- One entry of `Player.guesses`: `{ word: string; attempt: number }`. -/
structure GuessEntry where
  word : String
  attempt : Nat
deriving DecidableEq, Repr

/-- Embedding of `Player` from `stores/gameStore.ts`. The optional booleans
`eliminated?` and `won?` are only ever tested for truthiness and only ever
assigned `true` or `false`, so `undefined` is observationally `false` and
both are embedded as `Bool`; likewise the optional `guesses?` array is
embedded as a plain list. -/
structure Player where
  id : String
  username : String
  score : Int
  eliminated : Bool
  guesses : List GuessEntry
  won : Bool
deriving DecidableEq, Repr

/-- Embedding of `Room` from `stores/gameStore.ts`; the optional `gameStartTime : Date`
is embedded as an optional numeric timestamp. -/
structure Room where
  code : String
  hostId : String
  players : List Player
  solutionWord : Option String
  status : Status
  mode : Mode
  maxPlayers : Nat
  gameStartTime : Option Nat
  roundNumber : Option Nat
deriving DecidableEq, Repr

/-- Embedding of `GameState` of the Zustand store, with the `string[][]` game board. -/
structure GameState where
  currentRoom : Option Room
  currentPlayer : Option String
  isHost : Bool
  gameBoard : List (List String)
  currentGuess : String
  gameStatus : Status
  winner : Option String
  mode : Mode
  eliminatedPlayers : List String
  activePlayers : List Player
deriving DecidableEq, Repr

/-- Embedding of the `resetGame` action: a Zustand `set` with a fresh 6×5 board of `''`,
cleared guess, `waiting` status, no winner, and emptied eliminated/active
projections; `set` merges, leaving every other field untouched. -/
def resetGame (st : GameState) : GameState :=
  { st with
    gameBoard := List.replicate 6 (List.replicate 5 "")
    currentGuess := ""
    gameStatus := Status.waiting
    winner := none
    eliminatedPlayers := []
    activePlayers := [] }

/-- Embedding of the `removePlayer` action: when a room is present, keep only the players
whose `id` differs from `playerId` in `currentRoom.players`, then recompute
`activePlayers` and `eliminatedPlayers` from the updated roster. -/
def removePlayer (st : GameState) (playerId : String) : GameState :=
  match st.currentRoom with
  | none => st
  | some room =>
    let updatedRoom := { room with
      players := room.players.filter (fun p => p.id != playerId) }
    { st with
      currentRoom := some updatedRoom
      activePlayers := updatedRoom.players.filter (fun p => !p.eliminated)
      eliminatedPlayers :=
        (updatedRoom.players.filter (fun p => p.eliminated)).map Player.id }

/-- The per-player update of `eliminatePlayer`:
`p.id === playerId ? { ...p, eliminated: true } : p`. -/
def elimUpdate (playerId : String) (p : Player) : Player :=
  if p.id = playerId then { p with eliminated := true } else p

/-- Embedding of the `eliminatePlayer` action: when a room is present, map `elimUpdate` over
the roster (the roster itself keeps all players), then recompute
`activePlayers` and `eliminatedPlayers` from the updated roster. -/
def eliminatePlayer (st : GameState) (playerId : String) : GameState :=
  match st.currentRoom with
  | none => st
  | some room =>
    let updatedRoom := { room with
      players := room.players.map (elimUpdate playerId) }
    { st with
      currentRoom := some updatedRoom
      activePlayers := updatedRoom.players.filter (fun p => !p.eliminated)
      eliminatedPlayers :=
        (updatedRoom.players.filter (fun p => p.eliminated)).map Player.id }

/-! ## The `/game` page's local `submitGuess` (src/unnamed/part_000) -/

/-- Local state of the `/game` route component relevant to `submitGuess`:
the pooled guess list (`guesses` receives both the local player's
submissions and remote guesses via `onGuessSubmitted`), their evaluations,
the in-progress guess, and the game-over bookkeeping. -/
structure DuelGamePage where
  guesses : List String
  evaluations : List (List Verdict)
  currentGuess : String
  gameOver : Bool
  winner : Option String
  gameStatus : Status
  message : String
deriving DecidableEq, Repr

/-- Embedding of `submitGuess` of the `/game` page (part_000 lines 101–127): bail out
unless the current guess has 5 characters; append the guess and its
evaluation; on `currentGuess === solutionWord` set the winner and finish;
otherwise finish with no winner as soon as the pooled list reaches 6
guesses; always clear the current guess. -/
def clientSubmitGuess (st : DuelGamePage) (currentPlayer solutionWord : String) :
    DuelGamePage :=
  if st.currentGuess.length ≠ 5 then st
  else
    let newGuesses := st.guesses ++ [st.currentGuess]
    let newEvals := st.evaluations ++ [evaluateGuess st.currentGuess solutionWord]
    if st.currentGuess = solutionWord then
      { st with
        guesses := newGuesses
        evaluations := newEvals
        gameOver := true
        winner := some currentPlayer
        gameStatus := Status.finished
        message := "Congratulations! You won!"
        currentGuess := "" }
    else if 6 ≤ newGuesses.length then
      { st with
        guesses := newGuesses
        evaluations := newEvals
        gameOver := true
        gameStatus := Status.finished
        message := "Game Over! The word was " ++ solutionWord
        currentGuess := "" }
    else
      { st with
        guesses := newGuesses
        evaluations := newEvals
        currentGuess := "" }

/-! ## Lobby room construction (src/unnamed/part_002, `handleCreateRoom`) -/

/-- The `Room` object `handleCreateRoom` builds after a successful
`apiService.createRoom` call; `code` is the server-returned room code. -/
def handleCreateRoomRoom (username code : String) (mode : Mode) : Room :=
  { code := code
    hostId := username.trim
    players := [{ id := username.trim
                  username := username.trim
                  score := 0
                  eliminated := false
                  guesses := []
                  won := false }]
    solutionWord := none
    status := Status.waiting
    mode := mode
    maxPlayers := if mode = Mode.duel then 2 else 8
    gameStartTime := none
    roundNumber := some 1 }

/-! ## Word validation and room codes (`lib/utils.ts`, `CustomWordInput`) -/

/-- ASCII letter test, the regex character class `[A-Za-z]`. -/
def isAsciiLetter (c : Char) : Bool :=
  ('A' ≤ c && c ≤ 'Z') || ('a' ≤ c && c ≤ 'z')

/-- Regex test `/^[A-Za-z]{5}$/.test(word)`: exactly five ASCII letters. -/
def regexAlpha5 (word : String) : Bool :=
  word.data.length == 5 && word.data.all isAsciiLetter

/-- Embedding of `isValidWord` from `utils.ts` (lines 38–40):
`word.length === 5 && /^[A-Za-z]{5}$/.test(word)`. Note that it consults no
dictionary. -/
def isValidWord (word : String) : Bool :=
  word.length == 5 && regexAlpha5 word

/-- Uppercase ASCII letter test, the regex character class `[A-Z]`. -/
def isUpperLetter (c : Char) : Bool :=
  'A' ≤ c && c ≤ 'Z'

/-- Regex test `/^[A-Z]+$/.test(word)`: one or more uppercase letters. -/
def regexUpperPlus (word : String) : Bool :=
  !word.data.isEmpty && word.data.all isUpperLetter

/-- Modelled from the spec: the valid-word dictionary that `CustomWordInput`
loads from `src/renderer/src/data/validWords.json`, a data file not included
in the sources. The spec describes it as an external word-list lookup
service; the component's own quick picker offers HELLO, WORLD, GAMES, PLAYS,
SMART, BRAIN and QUICK as members, and, being an English word list with a
"Word not in dictionary" rejection branch, it does not contain every
5-letter combination (e.g. not QQQQQ). -/
def validWords : List String :=
  ["HELLO", "WORLD", "GAMES", "PLAYS", "SMART", "BRAIN", "QUICK",
   "CRANE", "MANGO", "ERASE", "SPEED"]

/-- The `isValid` outcome computed by `validateWord` in `CustomWordInput`
(the sequence of early rejections followed by the dictionary lookup
`validWords.includes(word)`), parameterized by the dictionary list. -/
def validateWord (dict : List String) (word : String) : Bool :=
  if word = "" then false
  else if word.length ≠ 5 then false
  else if !regexUpperPlus word then false
  else dict.contains word

/-- Base-36 digit characters as produced by `Number.prototype.toString(36)`
(lowercase `0-9a-z`). -/
def base36Char (d : Fin 36) : Char :=
  if d.val < 10 then Char.ofNat (48 + d.val) else Char.ofNat (87 + d.val)

/-- Embedding of `generateRoomCode` from `utils.ts` (lines 42–44):
`Math.random().toString(36).substring(2, 8).toUpperCase()`.
`Math.random()` returns a value in `[0, 1)` and `toString(36)` renders it as
`"0."` followed by the value's base-36 fractional digit expansion (just
`"0"` when the value is `0`), so the random source is embedded as that digit
list, which may well be shorter than six digits (`0.5` renders as `"0.i"`).
`substring(2, 8)` keeps at most the first six fractional digits and
`toUpperCase()` uppercases them. -/
def generateRoomCode (randomDigits : List (Fin 36)) : String :=
  String.mk (((randomDigits.take 6).map base36Char).map Char.toUpper)

/-- Uppercase-alphanumeric character test `[A-Z0-9]`. -/
def isUpperAlnum (c : Char) : Bool :=
  ('A' ≤ c && c ≤ 'Z') || ('0' ≤ c && c ≤ '9')

example : generateRoomCode [18] = "I" := by decide
example : generateRoomCode [] = "" := by decide
example : generateRoomCode [0, 35, 9, 10, 1, 2, 3, 4] = "0Z9A12" := by decide
example : isValidWord "QQQQQ" = true := by decide
example : validateWord validWords "HELLO" = true := by decide
example : validateWord validWords "QQQQQ" = false := by decide

/-! ## Duel termination and win detection (the `/game` page handler) -/

/-- A page state in which one player has already submitted five non-matching
guesses (the opponent has submitted none, so the pooled `guesses` list holds
only this player's words) and a sixth non-matching guess is pending. -/
def sixthGuessPage : DuelGamePage :=
  { guesses := ["AUDIO", "BUILD", "CHAIR", "DREAM", "EXTRA"]
    evaluations :=
      ["AUDIO", "BUILD", "CHAIR", "DREAM", "EXTRA"].map
        (fun w => evaluateGuess w "CRANE")
    currentGuess := "FROST"
    gameOver := false
    winner := none
    gameStatus := Status.playing
    message := "" }

/-- C3: the `/game` page's `submitGuess` marks the game finished with no
winner as soon as its pooled guess list reaches six entries — here after a
single player's six non-matching guesses against solution `CRANE`, while the
other player has contributed no guesses at all. -/
theorem clientSubmitGuess_premature_draw :
    (clientSubmitGuess sixthGuessPage "alice" "CRANE").gameStatus = Status.finished
    ∧ (clientSubmitGuess sixthGuessPage "alice" "CRANE").winner = none
    ∧ (clientSubmitGuess sixthGuessPage "alice" "CRANE").gameOver = true
    ∧ sixthGuessPage.guesses.length = 5 := by
  decide

/-- A fresh page state whose pending guess is the lowercase `crane`. -/
def lowercaseGuessPage : DuelGamePage :=
  { guesses := []
    evaluations := []
    currentGuess := "crane"
    gameOver := false
    winner := none
    gameStatus := Status.playing
    message := "" }

/-- C4 counterexample: the win check `currentGuess === solutionWord` is
case-sensitive, so the lowercase guess `crane` of the uppercase solution
`CRANE` does not win, although the two agree up to case. -/
theorem clientSubmitGuess_lowercase_no_win :
    (clientSubmitGuess lowercaseGuessPage "alice" "CRANE").winner = none
    ∧ (clientSubmitGuess lowercaseGuessPage "alice" "CRANE").gameStatus
        = Status.playing
    ∧ "crane".data.map Char.toUpper = "CRANE".data := by
  decide

/-- C4 (amended): a submitted 5-letter guess marks the submitting player as
winner with the game finished if and only if it equals the solution word
under case-sensitive exact string comparison (`===`). -/
theorem clientSubmitGuess_win_iff_exact (st : DuelGamePage)
    (player solution : String)
    (h5 : st.currentGuess.length = 5) (hw : st.winner = none) :
    ((clientSubmitGuess st player solution).winner = some player
      ∧ (clientSubmitGuess st player solution).gameStatus = Status.finished)
    ↔ st.currentGuess = solution := by
  unfold clientSubmitGuess
  rw [if_neg (by omega)]
  by_cases he : st.currentGuess = solution
  · simp [he]
  · rw [if_neg he]
    by_cases h6 : 6 ≤ (st.guesses ++ [st.currentGuess]).length
    · rw [if_pos h6]
      simp [hw, he]
    · rw [if_neg h6]
      simp [hw, he]

/-- A fresh page state whose pending guess is the exact solution `CRANE`. -/
def exactGuessPage : DuelGamePage :=
  { guesses := []
    evaluations := []
    currentGuess := "CRANE"
    gameOver := false
    winner := none
    gameStatus := Status.playing
    message := "" }

/-- Witness for the amended C4 at a concrete winning state. -/
theorem clientSubmitGuess_win_iff_exact_witness :
    ((clientSubmitGuess exactGuessPage "alice" "CRANE").winner = some "alice"
      ∧ (clientSubmitGuess exactGuessPage "alice" "CRANE").gameStatus
          = Status.finished)
    ↔ exactGuessPage.currentGuess = "CRANE" :=
  clientSubmitGuess_win_iff_exact exactGuessPage "alice" "CRANE" rfl rfl

/-! ## Roster preservation (store actions) -/

theorem elimUpdate_id (pid : String) (p : Player) :
    (elimUpdate pid p).id = p.id := by
  unfold elimUpdate
  by_cases hp : p.id = pid <;> simp [hp]

theorem elimUpdate_elim_of_id (pid : String) (p : Player) (h : p.id = pid) :
    (elimUpdate pid p).eliminated = true := by
  simp [elimUpdate, h]

/-- The lone player of the C5 counterexample state. -/
def soloPlayer : Player :=
  { id := "p1", username := "p1", score := 0, eliminated := false,
    guesses := [], won := false }

/-- A waiting duel room containing only `soloPlayer`. -/
def soloRoom : Room :=
  { code := "ABC123", hostId := "p1", players := [soloPlayer],
    solutionWord := none, status := Status.waiting, mode := Mode.duel,
    maxPlayers := 2, gameStartTime := none, roundNumber := some 1 }

/-- A store state holding `soloRoom`. -/
def soloState : GameState :=
  { currentRoom := some soloRoom, currentPlayer := some "p1", isHost := true,
    gameBoard := List.replicate 6 (List.replicate 5 ""), currentGuess := "",
    gameStatus := Status.waiting, winner := none, mode := Mode.duel,
    eliminatedPlayers := [], activePlayers := [soloPlayer] }

/-- C5 counterexample: `removePlayer` deletes the player with the given id
from `currentRoom.players` while the room still exists, so a player present
before the operation is no longer in the roster afterwards. -/
theorem removePlayer_deletes_from_roster :
    soloState.currentRoom.map Room.players = some [soloPlayer]
    ∧ (removePlayer soloState "p1").currentRoom.map Room.players = some []
    ∧ (removePlayer soloState "p1").currentRoom ≠ none := by
  decide

/-- C5 (amended): `eliminatePlayer` preserves the roster — the list of
player ids (hence also the roster length) of `currentRoom.players` is
unchanged, eliminated players included — while `removePlayer` removes
exactly the players whose id equals the argument, keeping every other
player. -/
theorem roster_preservation_amended (st : GameState) (pid : String) :
    ((eliminatePlayer st pid).currentRoom.map (fun r => r.players.map Player.id)
        = st.currentRoom.map (fun r => r.players.map Player.id))
    ∧ ((eliminatePlayer st pid).currentRoom.map (fun r => r.players.length)
        = st.currentRoom.map (fun r => r.players.length))
    ∧ ((removePlayer st pid).currentRoom.map Room.players
        = st.currentRoom.map (fun r => r.players.filter (fun p => p.id != pid))) := by
  cases hst : st.currentRoom with
  | none =>
    refine ⟨?_, ?_, ?_⟩ <;> simp [eliminatePlayer, removePlayer, hst]
  | some room =>
    refine ⟨?_, ?_, ?_⟩
    · have hmap : (room.players.map (elimUpdate pid)).map Player.id
          = room.players.map Player.id := by
        rw [List.map_map]
        exact List.map_congr_left (fun p _ => elimUpdate_id pid p)
      simp [eliminatePlayer, hst, hmap]
    · simp [eliminatePlayer, hst]
    · simp [removePlayer, hst]

/-- C9: when the current room contains a player with the given id,
`eliminatePlayer` rewrites the roster with `elimUpdate` — which keeps the
roster length, leaves every other player untouched, and sets the matching
player's `eliminated` flag — after which no active player carries the id,
the id is listed among the eliminated players, and the two projections are
exactly the non-eliminated players and the eliminated ids of the updated
roster. -/
theorem eliminatePlayer_spec (st : GameState) (room : Room) (pid : String)
    (hr : st.currentRoom = some room)
    (hp : ∃ p ∈ room.players, p.id = pid) :
    (eliminatePlayer st pid).currentRoom
        = some { room with players := room.players.map (elimUpdate pid) }
    ∧ (room.players.map (elimUpdate pid)).length = room.players.length
    ∧ (∀ p ∈ room.players, p.id ≠ pid → elimUpdate pid p = p)
    ∧ (∀ p ∈ room.players.map (elimUpdate pid), p.id = pid → p.eliminated = true)
    ∧ (∀ p ∈ (eliminatePlayer st pid).activePlayers, p.id ≠ pid)
    ∧ pid ∈ (eliminatePlayer st pid).eliminatedPlayers
    ∧ (eliminatePlayer st pid).activePlayers
        = (room.players.map (elimUpdate pid)).filter (fun p => !p.eliminated)
    ∧ (eliminatePlayer st pid).eliminatedPlayers
        = ((room.players.map (elimUpdate pid)).filter
            (fun p => p.eliminated)).map Player.id := by
  have hact : (eliminatePlayer st pid).activePlayers
      = (room.players.map (elimUpdate pid)).filter (fun p => !p.eliminated) := by
    simp [eliminatePlayer, hr]
  have helim : (eliminatePlayer st pid).eliminatedPlayers
      = ((room.players.map (elimUpdate pid)).filter
          (fun p => p.eliminated)).map Player.id := by
    simp [eliminatePlayer, hr]
  have hflag : ∀ p ∈ room.players.map (elimUpdate pid),
      p.id = pid → p.eliminated = true := by
    intro p hmem hid
    obtain ⟨q, hq, rfl⟩ := List.mem_map.mp hmem
    have hqid : q.id = pid := by
      rw [← elimUpdate_id pid q]
      exact hid
    exact elimUpdate_elim_of_id pid q hqid
  refine ⟨by simp [eliminatePlayer, hr], List.length_map _ _, ?_, hflag, ?_, ?_,
    hact, helim⟩
  · intro p _ hne
    simp [elimUpdate, hne]
  · intro p hmem
    rw [hact] at hmem
    obtain ⟨hmapmem, hbool⟩ := List.mem_filter.mp hmem
    intro hid
    have := hflag p hmapmem hid
    simp [this] at hbool
  · rw [helim]
    obtain ⟨p0, hp0, hid⟩ := hp
    apply List.mem_map.mpr
    refine ⟨elimUpdate pid p0, List.mem_filter.mpr ⟨List.mem_map_of_mem _ hp0, ?_⟩, ?_⟩
    · rw [elimUpdate_elim_of_id pid p0 hid]
    · rw [elimUpdate_id pid p0, hid]

/-- First player of the two-player witness room. -/
def duoP1 : Player :=
  { id := "p1", username := "ann", score := 0, eliminated := false,
    guesses := [], won := false }

/-- Second player of the two-player witness room. -/
def duoP2 : Player :=
  { id := "p2", username := "bob", score := 0, eliminated := false,
    guesses := [], won := false }

/-- A playing duel room with the two witness players. -/
def duoRoom : Room :=
  { code := "XYZ789", hostId := "p1", players := [duoP1, duoP2],
    solutionWord := some "CRANE", status := Status.playing, mode := Mode.duel,
    maxPlayers := 2, gameStartTime := none, roundNumber := some 1 }

/-- A store state holding `duoRoom`. -/
def duoState : GameState :=
  { currentRoom := some duoRoom, currentPlayer := some "ann", isHost := true,
    gameBoard := List.replicate 6 (List.replicate 5 ""), currentGuess := "",
    gameStatus := Status.playing, winner := none, mode := Mode.duel,
    eliminatedPlayers := [], activePlayers := [duoP1, duoP2] }

/-- Witness for C9: eliminating `p1` in the concrete two-player state. -/
theorem eliminatePlayer_spec_witness :
    (eliminatePlayer duoState "p1").currentRoom
        = some { duoRoom with players := duoRoom.players.map (elimUpdate "p1") }
    ∧ "p1" ∈ (eliminatePlayer duoState "p1").eliminatedPlayers
    ∧ (eliminatePlayer duoState "p1").activePlayers
        = (duoRoom.players.map (elimUpdate "p1")).filter (fun p => !p.eliminated) :=
  ⟨(eliminatePlayer_spec duoState duoRoom "p1" rfl ⟨duoP1, by decide, rfl⟩).1,
   (eliminatePlayer_spec duoState duoRoom "p1" rfl
      ⟨duoP1, by decide, rfl⟩).2.2.2.2.2.1,
   (eliminatePlayer_spec duoState duoRoom "p1" rfl
      ⟨duoP1, by decide, rfl⟩).2.2.2.2.2.2.1⟩

/-- C10: `resetGame` installs a fresh 6-row by 5-column board of empty
cells, clears the current guess, resets the status to `waiting`, clears the
winner, and empties the eliminated/active projections, while leaving
`currentRoom`, `currentPlayer`, `isHost` and `mode` untouched. -/
theorem resetGame_spec (st : GameState) :
    (resetGame st).gameBoard = List.replicate 6 (List.replicate 5 "")
    ∧ (resetGame st).currentGuess = ""
    ∧ (resetGame st).gameStatus = Status.waiting
    ∧ (resetGame st).winner = none
    ∧ (resetGame st).eliminatedPlayers = []
    ∧ (resetGame st).activePlayers = []
    ∧ (resetGame st).currentRoom = st.currentRoom
    ∧ (resetGame st).currentPlayer = st.currentPlayer
    ∧ (resetGame st).isHost = st.isHost
    ∧ (resetGame st).mode = st.mode :=
  ⟨rfl, rfl, rfl, rfl, rfl, rfl, rfl, rfl, rfl, rfl⟩

/-! ## Room capacity by mode -/

/-- C8: every room the create-room flow constructs carries
`maxPlayers = 2` in duel mode and `maxPlayers = 8` in battle-royale mode. -/
theorem handleCreateRoomRoom_maxPlayers (username code : String) (mode : Mode) :
    (handleCreateRoomRoom username code mode).maxPlayers
        = (if mode = Mode.duel then 2 else 8)
    ∧ (mode = Mode.duel →
        (handleCreateRoomRoom username code mode).maxPlayers = 2)
    ∧ (mode = Mode.battleRoyale →
        (handleCreateRoomRoom username code mode).maxPlayers = 8) := by
  refine ⟨rfl, ?_, ?_⟩
  · intro h
    simp [handleCreateRoomRoom, h]
  · intro h
    subst h
    simp [handleCreateRoomRoom]

/-- Witness for C8 at concrete usernames, codes and both modes. -/
theorem handleCreateRoomRoom_maxPlayers_witness :
    (handleCreateRoomRoom "ann" "ABC123" Mode.duel).maxPlayers = 2
    ∧ (handleCreateRoomRoom "bob" "XYZ789" Mode.battleRoyale).maxPlayers = 8 :=
  ⟨(handleCreateRoomRoom_maxPlayers "ann" "ABC123" Mode.duel).2.1 rfl,
   (handleCreateRoomRoom_maxPlayers "bob" "XYZ789" Mode.battleRoyale).2.2 rfl⟩

/-! ## Room-code shape and word validation -/

theorem base36_upper_alnum :
    ∀ d : Fin 36, isUpperAlnum (Char.toUpper (base36Char d)) = true := by
  decide

/-- C6 counterexample: for the random value `0.5`, whose base-36 rendering is
`"0.i"`, the generated code is the single character `"I"` — an uppercase
alphanumeric token of length 1, not of the fixed length 6. -/
theorem generateRoomCode_not_fixed_length :
    generateRoomCode [(18 : Fin 36)] = "I"
    ∧ (generateRoomCode [(18 : Fin 36)]).length = 1
    ∧ (generateRoomCode [(18 : Fin 36)]).length ≠ 6 := by
  decide

/-- C6 (amended): the generated room code always consists of uppercase
letters and digits only, and its length is the minimum of 6 and the length
of the random value's base-36 fractional expansion — exactly 6 for
expansions of six or more digits, shorter otherwise. -/
theorem generateRoomCode_upper_alnum_min_six (randomDigits : List (Fin 36)) :
    (generateRoomCode randomDigits).length = min 6 randomDigits.length
    ∧ (generateRoomCode randomDigits).data.all isUpperAlnum = true := by
  constructor
  · show (((randomDigits.take 6).map base36Char).map Char.toUpper).length
        = min 6 randomDigits.length
    rw [List.length_map, List.length_map, List.length_take]
  · show (((randomDigits.take 6).map base36Char).map Char.toUpper).all
        isUpperAlnum = true
    rw [List.all_eq_true]
    intro c hc
    rw [List.map_map] at hc
    obtain ⟨d, _, rfl⟩ := List.mem_map.mp hc
    exact base36_upper_alnum d

/-- C7 counterexample: `isValidWord` accepts `QQQQQ`, a 5-letter string that
fails dictionary validation (it is in no valid-word list and the custom-word
validator rejects it), so acceptance is not equivalent to being five letters
and a dictionary word. -/
theorem isValidWord_accepts_non_dictionary_word :
    isValidWord "QQQQQ" = true
    ∧ validWords.contains "QQQQQ" = false
    ∧ validateWord validWords "QQQQQ" = false := by
  decide

theorem data_length_eq (word : String) : word.length = word.data.length := rfl

/-- C7 (amended): `isValidWord` of `utils.ts` accepts exactly the strings of
five ASCII letters, performing no dictionary lookup, while the custom-word
validator `validateWord` accepts exactly the strings of five uppercase
letters that are contained in the `validWords` dictionary. -/
theorem wordValidation_amended (word : String) :
    (isValidWord word = true
      ↔ word.length = 5 ∧ word.data.all isAsciiLetter = true)
    ∧ (validateWord validWords word = true
      ↔ word.length = 5 ∧ word.data.all isUpperLetter = true
          ∧ word ∈ validWords) := by
  constructor
  · unfold isValidWord regexAlpha5
    rw [data_length_eq]
    simp [Bool.and_eq_true]
  · unfold validateWord
    by_cases h0 : word = ""
    · subst h0
      simp
    · rw [if_neg h0]
      by_cases h5 : word.length ≠ 5
      · rw [if_pos h5]
        simp [h5]
      · rw [if_neg h5]
        have h5' : word.length = 5 := not_not.mp h5
        have hne : word.data.isEmpty = false := by
          have hlen : word.data.length = 5 := h5'
          cases hd : word.data with
          | nil => rw [hd] at hlen; simp at hlen
          | cons a l => simp [hd]
        by_cases hr : regexUpperPlus word = true
        · rw [if_neg (by simp [hr])]
          have hall : word.data.all isUpperLetter = true := by
            unfold regexUpperPlus at hr
            exact ((Bool.and_eq_true _ _).mp hr).2
          simp [h5', hall, List.elem_iff]
        · have hrf : regexUpperPlus word = false := by
            revert hr
            cases regexUpperPlus word <;> simp
          rw [if_pos (by simp [hrf])]
          have hnall : ¬ word.data.all isUpperLetter = true := by
            intro hall
            apply hr
            unfold regexUpperPlus
            rw [hne, hall]
            rfl
          simp [hnall]
